import Mathlib

/-!
# StreamCalc (`calc.py`): a verified shallow embedding

This file embeds the core of the stream-calculator program — the streaming
mean/variance algorithm (Welford), the histogram ASCII formatter, and the
command registry/dispatcher — as executable Lean definitions, and proves the
specified properties about them.

Modelling conventions:
* Python floats are modelled as exact rationals (`ℚ`); the claims are about
  the algebraic behaviour of the algorithms, stated exactly.
* Python integers are `ℤ` (or `ℕ` where the source guarantees non-negativity);
  Python's floor division `//` is `Int.fdiv`.
* Code that can raise returns `Except String α`; the message mirrors the
  Python exception text.
* External collaborators (Python builtins `sum`/`max`/`min`/`str`, the numeric
  library's `histogram`/`median`/`cumsum`, `math.exp/log/sqrt`) are not part
  of the repository source; they are modelled from their documented behaviour
  (and, for the numeric library, from the spec), with `exp`/`log`/`sqrt` kept
  as parameters since they are transcendental.
-/

namespace StreamCalc

/-! ## Streaming statistics: `s_mean_var` (calc.py lines 79–95) -/

/-- The five loop variables of `s_mean_var`: `m_n`, `m_oldM`, `m_newM`,
`m_oldS`, `m_newS`. -/
structure WelfordState where
  n : ℕ
  oldM : ℚ
  newM : ℚ
  oldS : ℚ
  newS : ℚ
  deriving Repr, DecidableEq

/-- One iteration of the `for x in data` loop body of `s_mean_var`.
On the first element the source sets `m_oldM = m_newM = x` and `m_oldS = 0.0`
but leaves `m_newS` untouched; on later elements it computes `m_newM`,
`m_newS` and then copies them into `m_oldM`, `m_oldS`. -/
def welford_step (st : WelfordState) (x : ℚ) : WelfordState :=
  let n := st.n + 1
  if n = 1 then
    { n := n, oldM := x, newM := x, oldS := 0, newS := st.newS }
  else
    let newM := st.oldM + (x - st.oldM) / (n : ℚ)
    let newS := st.oldS + (x - st.oldM) * (x - newM)
    { n := n, oldM := newM, newM := newM, oldS := newS, newS := newS }

/-- Python `s_mean_var(data)`: single-pass mean and sample variance (Welford).
Mirrors calc.py lines 79–95: after the loop, `mean = m_newM if m_n > 0 else
0.0` and `var = m_newS / (m_n - 1) if m_n > 1 else 0.0`. -/
def s_mean_var (data : List ℚ) : ℚ × ℚ :=
  let st := data.foldl welford_step ⟨0, 0, 0, 0, 0⟩
  (if st.n > 0 then st.newM else 0,
   if st.n > 1 then st.newS / ((st.n : ℚ) - 1) else 0)

/-- Python `s_mean(data)` (calc.py line 97). -/
def s_mean (data : List ℚ) : ℚ := (s_mean_var data).1

/-- Python `s_var(data)` (calc.py line 98). -/
def s_var (data : List ℚ) : ℚ := (s_mean_var data).2

/-- The textbook two-pass mean: `Σx / n`. -/
def twoPassMean (data : List ℚ) : ℚ := data.sum / (data.length : ℚ)

/-- The textbook two-pass sample variance: `Σ(x - mean)² / (n - 1)`. -/
def twoPassVar (data : List ℚ) : ℚ :=
  (data.map (fun x => (x - twoPassMean data) ^ 2)).sum / ((data.length : ℚ) - 1)

/-- Sum of squares of a list. -/
def sumSq (data : List ℚ) : ℚ := (data.map (fun x => x ^ 2)).sum

/-! ## Models of Python / C string formatting primitives

These model external language/library primitives used by `calc.py`:
`str.rjust`, string repetition `s * k`, the `%0.2g` format, and `str(float)`.
They are exact for the rational values arising in this development (Python
formats IEEE doubles; we model the values as exact rationals). -/

/-- Python `s.rjust(w)`: left-pad with spaces to width `w`. -/
def rjust (s : String) (w : ℕ) : String :=
  if s.length < w then String.mk (List.replicate (w - s.length) ' ') ++ s else s

/-- Python `s * k` for an integer `k`: `k` copies, empty when `k ≤ 0`. -/
def pyRepeat (s : String) (k : ℤ) : String :=
  String.join (List.replicate k.toNat s)

/-- Round to the nearest integer, ties to even (the rounding used when
formatting binary floats with `%g`; exact ties are modelled as half-even). -/
def roundHalfEven (a : ℚ) : ℤ :=
  let n := ⌊a⌋
  let f := a - (n : ℚ)
  if f < 1 / 2 then n else if 1 / 2 < f then n + 1 else if n % 2 = 0 then n else n + 1

/-- Integer `⌊log10 n⌋` on naturals (`0` for `n < 10`), with explicit fuel. -/
def log10fuel : ℕ → ℕ → ℕ
  | 0, _ => 0
  | fuel + 1, n => if n < 10 then 0 else log10fuel fuel (n / 10) + 1

/-- Integer `⌊log10 n⌋` on naturals (`0` for `n = 0`). -/
def log10 (n : ℕ) : ℕ := log10fuel n n

/-- Integer `⌊log10 a⌋` for a positive rational `a`. -/
def decExp (a : ℚ) : ℤ :=
  if 1 ≤ a then (log10 ⌊a⌋.toNat : ℤ)
  else
    let j := log10 ⌊1 / a⌋.toNat
    if a * (10 : ℚ) ^ j = 1 then -(j : ℤ) else -(j : ℤ) - 1

/-- Model of C / Python `'%0.2g' % x`: two significant digits, fixed notation
for exponents in `[-4, 1]`, otherwise scientific with a two-digit exponent;
trailing zeros stripped. -/
def fmt_g2 (q : ℚ) : String :=
  if q = 0 then "0"
  else
    let sgn := if q < 0 then "-" else ""
    let a := |q|
    let e0 := decExp a
    let scaled := a * (10 : ℚ) ^ ((1 : ℤ) - e0)
    let n0 := roundHalfEven scaled
    let n1 := if n0 = 100 then (10 : ℤ) else n0
    let e := if n0 = 100 then e0 + 1 else e0
    let d1 := n1 / 10
    let d2 := n1 % 10
    if e < -4 ∨ 2 ≤ e then
      let mant := if d2 = 0 then toString d1 else toString d1 ++ "." ++ toString d2
      let esign := if e < 0 then "-" else "+"
      let eabs := e.natAbs
      let epad := if eabs < 10 then "0" ++ toString eabs else toString eabs
      sgn ++ mant ++ "e" ++ esign ++ epad
    else if e = 1 then sgn ++ toString n1
    else if e = 0 then
      sgn ++ (if d2 = 0 then toString d1 else toString d1 ++ "." ++ toString d2)
    else
      let zeros := String.mk (List.replicate (e.natAbs - 1) '0')
      sgn ++ "0." ++ zeros ++ toString d1 ++ (if d2 = 0 then "" else toString d2)

/-- Decimal digits of a rational in `[0, 1)`, up to `fuel` digits (stops once
the remainder is zero). -/
def decDigits (fuel : ℕ) (r : ℚ) : List ℕ :=
  match fuel with
  | 0 => []
  | fuel + 1 =>
    if r = 0 then []
    else
      let d := ⌊r * 10⌋.toNat
      d :: decDigits fuel (r * 10 - (d : ℚ))

/-- Model of Python `str(float)`: sign, integer part, `'.'`, fraction digits
(at least one, `0` when the value is integral). Exact for values whose decimal
expansion terminates within 17 digits — which covers every value formatted in
this development. -/
def pyFloatStr (q : ℚ) : String :=
  let sgn := if q < 0 then "-" else ""
  let a := |q|
  let ip := ⌊a⌋.toNat
  let ds := decDigits 17 (a - (ip : ℚ))
  let frs := if ds.isEmpty then "0" else String.join (ds.map (fun d => toString d))
  sgn ++ toString ip ++ "." ++ frs

/-- Python builtin `max` over a sequence: `ValueError` when empty. -/
def pyMax {α : Type} [LinearOrder α] : List α → Except String α
  | [] => Except.error "ValueError: max() arg is an empty sequence"
  | x :: xs => Except.ok (xs.foldl max x)

/-- Python builtin `min` over a sequence: `ValueError` when empty. -/
def pyMin {α : Type} [LinearOrder α] : List α → Except String α
  | [] => Except.error "ValueError: min() arg is an empty sequence"
  | x :: xs => Except.ok (xs.foldl min x)

/-- Python list indexing `l[i]` for `i ≥ 0`: `IndexError` out of range. -/
def pyGet {α : Type} (l : List α) (i : ℕ) : Except String α :=
  match l.get? i with
  | some v => Except.ok v
  | none => Except.error "IndexError: list index out of range"

/-! ## The histogram formatter (calc.py lines 62–77) -/

/-- Python `hist_formatter((vals, bins), tick_char='#', max_width=80)`.
Mirrors calc.py lines 62–77: format every edge with `%0.2g`, right-justify
the labels to a common width, and if the widest row would not fit in
`max_width`, rescale every count by floor division (`//`; counts come from
the numeric library as machine integers, whose division by zero yields 0,
modelled by `Int.fdiv`). Rows `0 .. n-2` are half-open `[lo,hi): ticks`,
joined with newlines; the closed last row is appended after a final newline.
Python raises `ValueError` when `vals` or `bins` is empty (the `max` calls)
and `IndexError` when `bins` is shorter than `vals` needs. -/
def hist_formatter (x : List ℕ × List ℚ) (tick_char : String) (max_width : ℤ) :
    Except String String := do
  let vals := x.1
  let bins := x.2
  let s_bins0 := bins.map fmt_g2
  let max_bin_len ← pyMax (s_bins0.map String.length)
  let s_bins := s_bins0.map (fun t => rjust t max_bin_len)
  let max_val ← pyMax vals
  let valsZ : List ℤ :=
    if (max_val : ℤ) + 5 + ((max_bin_len : ℤ) * 2) > max_width then
      vals.map (fun (v : ℕ) =>
        Int.fdiv ((max_width - 5 - ((max_bin_len : ℤ) * 2)) * (v : ℤ)) (max_val : ℤ))
    else
      vals.map (fun (v : ℕ) => (v : ℤ))
  let n := valsZ.length
  let rows ← (List.range (n - 1)).mapM (fun i => do
    let a ← pyGet s_bins i
    let b ← pyGet s_bins (i + 1)
    let v ← pyGet valsZ i
    pure ("[" ++ a ++ "," ++ b ++ "): " ++ pyRepeat tick_char v))
  let s := String.intercalate "\n" rows
  let a ← pyGet s_bins (n - 1)
  let b ← pyGet s_bins n
  let v ← pyGet valsZ (n - 1)
  pure (s ++ "\n[" ++ a ++ "," ++ b ++ "]: " ++ pyRepeat tick_char v)

/-! ## Result values and formatters -/

/-- The run-time values flowing from operations to formatters: a float, a
machine integer (Python `int`), the `(mean, variance)` pair of `rstat`, a
list of floats, or a histogram result `(counts, edges)`. -/
inductive PyVal where
  | num (q : ℚ)
  | int (z : ℤ)
  | pair (a b : ℚ)
  | list (l : List ℚ)
  | hist (counts : List ℕ) (edges : List ℚ)

/-- Model of Python builtin `str` on the run-time values above (the default
formatter, calc.py line 129). `str` of a tuple uses the elements' reprs. -/
def pyStr : PyVal → String
  | .num q => pyFloatStr q
  | .int z => toString z
  | .pair a b => "(" ++ pyFloatStr a ++ ", " ++ pyFloatStr b ++ ")"
  | .list l => "[" ++ String.intercalate ", " (l.map pyFloatStr) ++ "]"
  | .hist c e =>
      "(array([" ++ String.intercalate ", " (c.map toString) ++ "]), array([" ++
        String.intercalate ", " (e.map pyFloatStr) ++ "]))"

/-- The type of a command's operation. -/
def PyOp : Type := List ℚ → Except String PyVal

/-- The type of a command's formatter. -/
def PyFmt : Type := PyVal → Except String String

/-- The default formatter `str` as a `PyFmt`. -/
def strFmt : PyFmt := fun v => Except.ok (pyStr v)

/-- Python `list_formatter(l)` (calc.py lines 59–60): newline-join `str` of the
elements. Iterating a pair also works in Python; a scalar raises
`TypeError` (never reached: the registry pairs it only with list results). -/
def list_formatter : PyFmt
  | .list l => Except.ok (String.intercalate "\n" (l.map pyFloatStr))
  | .pair a b => Except.ok (pyFloatStr a ++ "\n" ++ pyFloatStr b)
  | .hist c e =>
      Except.ok ("array([" ++ String.intercalate ", " (c.map toString) ++ "])" ++
        "\n" ++ "array([" ++ String.intercalate ", " (e.map pyFloatStr) ++ "])")
  | .num _ => Except.error "TypeError: not iterable"
  | .int _ => Except.error "TypeError: not iterable"

/-- The formatter `hist_formatter` with its default `tick_char`/`max_width`, as the `PyFmt`
registered for `hist` (calc.py lines 174–175). A non-histogram argument would
be a `TypeError` unpacking `(vals, bins)` (never reached). -/
def hist_formatterF : PyFmt
  | .hist c e => hist_formatter (c, e) "#" 80
  | _ => Except.error "TypeError: cannot unpack"

/-! ## The remaining stream operations (calc.py lines 97–124) -/

/-- Helper for `s_cumsum`: the generator's loop, carrying the running `sum`.
Note the source's bug-or-feature: it accumulates `sum += x` but yields `x`. -/
def s_cumsum_go (acc : ℚ) : List ℚ → List ℚ
  | [] => []
  | x :: t => x :: s_cumsum_go (acc + x) t

/-- Python `s_cumsum(data)` (calc.py lines 101–105): accumulates a running sum but
yields the original elements. -/
def s_cumsum (data : List ℚ) : List ℚ := s_cumsum_go 0 data

/-- Helper for `s_cumprod`: the generator's loop, carrying the running
product, yielding each partial product. -/
def s_cumprod_go (acc : ℚ) : List ℚ → List ℚ
  | [] => []
  | x :: t => (acc * x) :: s_cumprod_go (acc * x) t

/-- Python `s_cumprod(data)` (calc.py lines 107–111). -/
def s_cumprod (data : List ℚ) : List ℚ := s_cumprod_go 1 data

/-- Python `s_prod(data)` (calc.py lines 116–119). -/
def s_prod (data : List ℚ) : ℚ := data.foldl (fun a x => a * x) 1

/-- Python builtin `sum` over floats: starts from the int `0`, so the empty
sum is the int `0` and any non-empty sum of floats is a float. -/
def pySum (data : List ℚ) : PyVal :=
  if data.isEmpty then .int 0 else .num (data.foldl (fun a x => a + x) 0)

/-! ## Models of the numeric library (external collaborator)

Modelled from the spec: the numeric library (§6) supplies `median`,
`cumsum` and equal-width `histogram` binning; it is not part of the
repository source. -/

/-- Modelled from the spec: the numeric library's cumulative sum (§6),
used by the `cumsum` command over a materialized list (calc.py line 180). -/
def np_cumsum_go (acc : ℚ) : List ℚ → List ℚ
  | [] => []
  | x :: t => (acc + x) :: np_cumsum_go (acc + x) t

/-- Modelled from the spec: the numeric library's cumulative sum — the list
of prefix sums. -/
def np_cumsum (data : List ℚ) : List ℚ := np_cumsum_go 0 data

/-- Modelled from the spec: the numeric library's `median` (§6) — middle of
the sorted data, average of the two middles for even length; an error on an
empty array. -/
def np_median (data : List ℚ) : Except String PyVal :=
  if data.isEmpty then Except.error "IndexError: median of empty array"
  else
    let s := data.insertionSort (· ≤ ·)
    let n := s.length
    if n % 2 = 1 then Except.ok (.num (s.getD (n / 2) 0))
    else Except.ok (.num ((s.getD (n / 2 - 1) 0 + s.getD (n / 2) 0) / 2))

/-- Modelled from the spec: the numeric library's equal-width histogram
binning (§4.2, §6): 10 bins spanning `[min, max]` (widened by `±1/2` when all
values are equal), `counts[i]` counting `edges[i] ≤ v < edges[i+1]`, with the
last bin closed; an error on empty input (no min/max). -/
def np_histogram (data : List ℚ) : Except String PyVal :=
  match data with
  | [] => Except.error "ValueError: zero-size array"
  | x :: xs =>
    let mn := xs.foldl min x
    let mx := xs.foldl max x
    let lo := if mn = mx then mn - 1 / 2 else mn
    let hi := if mn = mx then mx + 1 / 2 else mx
    let edge := fun (i : ℕ) => lo + (i : ℚ) * (hi - lo) / 10
    let counts := (List.range 10).map (fun i =>
      data.countP (fun v =>
        decide (edge i ≤ v) &&
          (if i = 9 then decide (v ≤ hi) else decide (v < edge (i + 1)))))
    Except.ok (.hist counts ((List.range 11).map edge))

/-! ## Command and CommandProcessor (calc.py lines 126–165) -/

/-- Class `Command` (calc.py lines 126–138): an operation (optional; `None` means
pass the stream through), a formatter (default `str`), and help text
(default `None`). -/
structure Command where
  function : Option PyOp
  formatter : PyFmt
  help : Option String

/-- Method `Command.__call__` (calc.py lines 134–135): apply the operation, or pass
the data through unchanged when there is none. -/
def Command.call (c : Command) (data : List ℚ) : Except String PyVal :=
  match c.function with
  | some f => f data
  | none => Except.ok (.list data)

/-- Method `Command.process` (calc.py lines 137–138): `formatter(self(data))`. -/
def Command.process (c : Command) (data : List ℚ) : Except String String := do
  let r ← c.call data
  c.formatter r

/-- Assignment `m[k] = v` on a Python dict, modelled on an association list
with unique keys: replace in place if present, else append. -/
def dictSet (m : List (String × Command)) (k : String) (v : Command) :
    List (String × Command) :=
  if m.any (fun p => p.1 = k) then m.map (fun p => if p.1 = k then (k, v) else p)
  else m ++ [(k, v)]

/-- Lookup `m[k]` on the dict model. -/
def dictGet (m : List (String × Command)) (k : String) : Option Command :=
  (m.find? (fun p => p.1 = k)).map Prod.snd

/-- Class `CommandProcessor` (calc.py lines 140–165): wraps the `_commands` dict. -/
structure CommandProcessor where
  commands : List (String × Command)

/-- Method `register_command(name, command=None, function=None, formatter=str,
help=None)` (calc.py lines 145–150): store `command` if given (any `Command`
is truthy), else construct one from the pieces. -/
def CommandProcessor.register_command (cp : CommandProcessor) (name : String)
    (command : Option Command) (function : Option PyOp) (formatter : PyFmt)
    (help : Option String) : CommandProcessor :=
  match command with
  | some c => ⟨dictSet cp.commands name c⟩
  | none => ⟨dictSet cp.commands name ⟨function, formatter, help⟩⟩

/-- Method `valid_command` (calc.py lines 152–153): membership test. -/
def CommandProcessor.valid_command (cp : CommandProcessor) (command : String) :
    Bool :=
  (dictGet cp.commands command).isSome

/-- Format `'%s' % h` for the stored help value (`None` formats as `"None"`). -/
def pyHelpStr : Option String → String
  | some s => s
  | none => "None"

/-- Method `command_list` (calc.py lines 155–158): `'\t%s\t%s' % (name, c.help)` for
each entry of `sorted(self._commands.items())`, joined with newlines.
`sorted` on pairs with unique first components orders by name; Python's
stable sort is modelled by insertion sort. -/
def CommandProcessor.command_list (cp : CommandProcessor) : String :=
  String.intercalate "\n"
    ((cp.commands.insertionSort (fun p q => p.1 ≤ q.1)).map
      (fun p => "\t" ++ p.1 ++ "\t" ++ pyHelpStr p.2.help))

/-- Method `process(command, data)` (calc.py lines 160–165): dict lookup, a
`KeyError` is turned into `ValueError('Command not found: %s' % command)`;
otherwise delegate to the command. -/
def CommandProcessor.process (cp : CommandProcessor) (command : String)
    (data : List ℚ) : Except String String :=
  match dictGet cp.commands command with
  | none => Except.error ("Command not found: " ++ command)
  | some c => c.process data

/-! ## The registry built at import time (calc.py lines 167–192)

`math.exp`, `math.log` and `math.sqrt` are transcendental; they are taken as
parameters `mexp mlog msqrt : ℚ → ℚ` (no claim depends on their values). -/

/-- The operation of `hist`: `lambda x: n.histogram(list(x), new=True)`. -/
def histOp : PyOp := fun data => np_histogram data

/-- The operation of `rstat`: `s_mean_var`, formatted by default `str`. -/
def rstatOp : PyOp := fun data =>
  Except.ok (.pair (s_mean_var data).1 (s_mean_var data).2)

/-- The registry as built by the 17 `register_command` calls at calc.py
lines 167–192, in source order. -/
def defaultProcessor (mexp mlog msqrt : ℚ → ℚ) : CommandProcessor :=
  ((((((((((((((((((⟨[]⟩ : CommandProcessor).register_command
    "sum" none (some (fun d => Except.ok (pySum d))) strFmt
      (some "Add a list of numbers")).register_command
    "add" none (some (fun d => Except.ok (pySum d))) strFmt
      (some "see sum")).register_command
    "max" none (some (fun d => (pyMax d).map .num)) strFmt
      (some "Max")).register_command
    "min" none (some (fun d => (pyMin d).map .num)) strFmt
      (some "Min")).register_command
    "prod" none (some (fun d => Except.ok (.num (s_prod d)))) strFmt
      (some "Multiply a list of numbers")).register_command
    "hist" none (some histOp) hist_formatterF
      (some "Produce a histogram")).register_command
    "mean" none (some (fun d => Except.ok (.num (s_mean d)))) strFmt
      (some "Mean")).register_command
    "median" none (some (fun d => np_median d)) strFmt
      (some "Median")).register_command
    "var" none (some (fun d => Except.ok (.num (s_var d)))) strFmt
      (some "Variance")).register_command
    "std" none (some (fun d => Except.ok (.num (msqrt (s_var d))))) strFmt
      (some "Standard Deviation")).register_command
    "cumsum" none (some (fun d => Except.ok (.list (np_cumsum d)))) list_formatter
      (some "Cumulative sum")).register_command
    "cumprod" none (some (fun d => Except.ok (.list (s_cumprod d)))) list_formatter
      (some "Cumulative product")).register_command
    "exp" none (some (fun d => Except.ok (.list (d.map mexp)))) list_formatter
      (some "Exponentiate every element in the list")).register_command
    "log" none (some (fun d => Except.ok (.list (d.map mlog)))) list_formatter
      (some "Take the log of every element in the list")).register_command
    "print" none none list_formatter
      (some "Just print the (cleaned) input")).register_command
    "help" none none strFmt
      (some "Print this message")).register_command
    "rstat" none (some rstatOp) strFmt
      (some "Computes mean & variance with lower memory usage"))

/-! ## Spec-side helper definitions

These transcribe quantities named by the specification (label width, the
claimed per-row tick count) and package registration sequences; they are used
to state the theorems, not by the embedded program. -/

/-- Maximum of a list of naturals (`0` for the empty list); agrees with the
Python `max` builtin on non-empty input. -/
def maxD (l : List ℕ) : ℕ := l.foldl max 0

/-- The width of the longest `%0.2g`-formatted edge label (the spec's
`labelWidth`). -/
def labelWidth (edges : List ℚ) : ℕ :=
  maxD ((edges.map fmt_g2).map String.length)

/-- The `i`-th edge label, right-justified to the common label width, as the
formatter displays it. -/
def paddedLabel (edges : List ℚ) (i : ℕ) : String :=
  rjust ((edges.map fmt_g2).getD i "") (labelWidth edges)

/-- The per-bin bar lengths actually used by `hist_formatter`: the raw counts
when the widest row fits, otherwise each count floor-scaled into the
available width. -/
def scaledCounts (vals : List ℕ) (L : ℕ) (maxw : ℤ) : List ℤ :=
  if (maxD vals : ℤ) + 5 + ((L : ℤ) * 2) > maxw then
    vals.map (fun (v : ℕ) =>
      Int.fdiv ((maxw - 5 - ((L : ℤ) * 2)) * (v : ℤ)) (maxD vals : ℤ))
  else
    vals.map (fun (v : ℕ) => (v : ℤ))

/-- The tick count claimed by the specification for row `i`: the raw count
when `maxVal + 5 + 2·labelWidth ≤ maxWidth`, otherwise
`floor(availableWidth · count / maxVal)`. -/
def claimTick (vals : List ℕ) (edges : List ℚ) (maxw : ℤ) (i : ℕ) : ℤ :=
  if (maxD vals : ℤ) + 5 + 2 * (labelWidth edges : ℤ) ≤ maxw then
    (vals.getD i 0 : ℤ)
  else
    Int.fdiv ((maxw - 5 - 2 * (labelWidth edges : ℤ)) * (vals.getD i 0 : ℤ))
      (maxD vals : ℤ)

/-- A sequence of `register_command` calls applied in order (each call stores
one `Command` under one name; the `function`/`formatter`/`help` calling mode
stores the `Command` constructed from those pieces, so a list of
name–command pairs captures every sequence of calls). -/
def applyRegs (regs : List (String × Command)) (cp : CommandProcessor) :
    CommandProcessor :=
  regs.foldl (fun s r => s.register_command r.1 (some r.2) none strFmt none) cp

/-- The names of the registered commands, in storage order. -/
def registryNames (cp : CommandProcessor) : List String :=
  cp.commands.map Prod.fst

end StreamCalc

namespace StreamCalc

/-! ## Helper lemmas and claim theorems -/

lemma welford_run (l : List ℚ) :
    ∀ (k : ℕ) (s q : ℚ), 1 ≤ k →
    l.foldl welford_step
        ⟨k, s / (k : ℚ), s / (k : ℚ), q - s ^ 2 / (k : ℚ), q - s ^ 2 / (k : ℚ)⟩ =
      ⟨k + l.length,
       (s + l.sum) / ((k + l.length : ℕ) : ℚ),
       (s + l.sum) / ((k + l.length : ℕ) : ℚ),
       (q + sumSq l) - (s + l.sum) ^ 2 / ((k + l.length : ℕ) : ℚ),
       (q + sumSq l) - (s + l.sum) ^ 2 / ((k + l.length : ℕ) : ℚ)⟩ := by
  induction l with
  | nil => intro k s q hk; simp [sumSq]
  | cons x t ih =>
    intro k s q hk
    have hk0 : ((k : ℚ)) ≠ 0 := by positivity
    have hk1 : (((k + 1 : ℕ)) : ℚ) ≠ 0 := by positivity
    have hstep :
        welford_step ⟨k, s / (k : ℚ), s / (k : ℚ),
            q - s ^ 2 / (k : ℚ), q - s ^ 2 / (k : ℚ)⟩ x =
          ⟨k + 1, (s + x) / ((k + 1 : ℕ) : ℚ), (s + x) / ((k + 1 : ℕ) : ℚ),
           (q + x ^ 2) - (s + x) ^ 2 / ((k + 1 : ℕ) : ℚ),
           (q + x ^ 2) - (s + x) ^ 2 / ((k + 1 : ℕ) : ℚ)⟩ := by
      have hne : k + 1 ≠ 1 := by omega
      have hk1' : ((k : ℚ)) + 1 ≠ 0 := by positivity
      simp only [welford_step, hne, if_false]
      rw [WelfordState.mk.injEq]
      push_cast
      refine ⟨rfl, ?_, ?_, ?_, ?_⟩ <;> (field_simp; ring)
    have := ih (k + 1) (s + x) (q + x ^ 2) (by omega)
    calc (x :: t).foldl welford_step
          ⟨k, s / (k : ℚ), s / (k : ℚ), q - s ^ 2 / (k : ℚ), q - s ^ 2 / (k : ℚ)⟩
        = t.foldl welford_step
          ⟨k + 1, (s + x) / ((k + 1 : ℕ) : ℚ), (s + x) / ((k + 1 : ℕ) : ℚ),
           (q + x ^ 2) - (s + x) ^ 2 / ((k + 1 : ℕ) : ℚ),
           (q + x ^ 2) - (s + x) ^ 2 / ((k + 1 : ℕ) : ℚ)⟩ := by
          rw [List.foldl_cons, hstep]
      _ = _ := by
          rw [this]
          have hlen : k + 1 + t.length = k + (t.length + 1) := by omega
          have hsum : s + x + t.sum = s + (x + t.sum) := by ring
          have hsq : q + x ^ 2 + sumSq t = q + (x ^ 2 + sumSq t) := by ring
          simp [sumSq, hlen, hsum, hsq, add_comm, add_left_comm, add_assoc]

lemma welford_full (x : ℚ) (t : List ℚ) :
    (x :: t).foldl welford_step ⟨0, 0, 0, 0, 0⟩ =
      ⟨(x :: t).length,
       (x :: t).sum / (((x :: t).length : ℕ) : ℚ),
       (x :: t).sum / (((x :: t).length : ℕ) : ℚ),
       sumSq (x :: t) - (x :: t).sum ^ 2 / (((x :: t).length : ℕ) : ℚ),
       sumSq (x :: t) - (x :: t).sum ^ 2 / (((x :: t).length : ℕ) : ℚ)⟩ := by
  have h1 : welford_step ⟨0, 0, 0, 0, 0⟩ x =
      ⟨1, x / ((1 : ℕ) : ℚ), x / ((1 : ℕ) : ℚ),
       x ^ 2 - x ^ 2 / ((1 : ℕ) : ℚ), x ^ 2 - x ^ 2 / ((1 : ℕ) : ℚ)⟩ := by
    simp [welford_step]
  have h2 := welford_run t 1 x (x ^ 2) le_rfl
  rw [List.foldl_cons, h1, h2]
  simp [sumSq, List.sum_cons, add_comm]

/-- Sum of squared deviations from the mean, rewritten without the mean. -/
lemma sq_dev_sum (l : List ℚ) (hl : l ≠ []) :
    (l.map (fun x => (x - twoPassMean l) ^ 2)).sum =
      sumSq l - l.sum ^ 2 / (l.length : ℚ) := by
  have hn : ((l.length : ℕ) : ℚ) ≠ 0 := by
    have : l.length ≠ 0 := by simpa [List.length_eq_zero] using hl
    exact_mod_cast this
  have expand : ∀ (μ : ℚ) (m : List ℚ),
      (m.map (fun x => (x - μ) ^ 2)).sum =
        sumSq m - 2 * μ * m.sum + (m.length : ℚ) * μ ^ 2 := by
    intro μ m
    induction m with
    | nil => simp [sumSq]
    | cons y t ih =>
      simp only [List.map_cons, List.sum_cons, ih, sumSq, List.length_cons]
      push_cast
      ring
  rw [expand (twoPassMean l) l, twoPassMean]
  field_simp
  ring


/-- C1: for every non-empty list, `s_mean_var` returns exactly the textbook
two-pass mean `Σx/n` and sample variance `Σ(x-mean)²/(n-1)`, even though it is
computed in one pass via the Welford update. (In the one-element case both the
code and the two-pass formula — with Lean's `0⁻¹ = 0` convention — give 0.) -/
theorem s_mean_var_eq_two_pass (data : List ℚ) (h : data ≠ []) :
    s_mean_var data = (twoPassMean data, twoPassVar data) := by
  obtain ⟨x, t, rfl⟩ := List.exists_cons_of_ne_nil h
  have hfold := welford_full x t
  have hlen : 0 < (x :: t).length := by simp
  simp only [s_mean_var, hfold]
  rw [Prod.mk.injEq]
  constructor
  · simp [twoPassMean, hlen]
  · rcases Nat.eq_or_lt_of_le (Nat.succ_le_of_lt hlen) with h1 | h2
    · -- a single element: the code returns 0, and the two-pass formula is 0/0 = 0
      have ht : t = [] := by
        have := h1.symm
        simpa [List.length_eq_zero] using this
      subst ht
      simp [twoPassVar, twoPassMean, sumSq]
    · have hgt : 1 < (x :: t).length := h2
      simp only [hgt, if_pos]
      rw [twoPassVar, sq_dev_sum _ (by simp)]

/-- Witness for `s_mean_var_eq_two_pass` at `data = [1, 2, 3]`. -/
theorem s_mean_var_eq_two_pass_witness :
    s_mean_var [(1 : ℚ), 2, 3] = (twoPassMean [1, 2, 3], twoPassVar [1, 2, 3]) :=
  s_mean_var_eq_two_pass [1, 2, 3] (by decide)

/-- C6: `s_mean_var` on the empty stream returns `(0, 0)` (a defined result,
not an error), and on the one-element stream `[5]` returns `(5, 0)`. -/
theorem s_mean_var_degenerate :
    s_mean_var [] = (0, 0) ∧ s_mean_var [(5 : ℚ)] = (5, 0) := by
  refine ⟨by decide, by decide⟩

/-! ## Dispatcher lemmas and the claim C3 theorem -/

set_option maxHeartbeats 1000000 in
/-- The registry built by calc.py lines 167–192, evaluated to its stored
association list (17 entries, in registration order; all names distinct, so
no registration overwrote another). -/
lemma defaultProcessor_commands (me ml ms : ℚ → ℚ) :
    (defaultProcessor me ml ms).commands =
      [("sum", ⟨some (fun d => Except.ok (pySum d)), strFmt,
          some "Add a list of numbers"⟩),
       ("add", ⟨some (fun d => Except.ok (pySum d)), strFmt, some "see sum"⟩),
       ("max", ⟨some (fun d => (pyMax d).map .num), strFmt, some "Max"⟩),
       ("min", ⟨some (fun d => (pyMin d).map .num), strFmt, some "Min"⟩),
       ("prod", ⟨some (fun d => Except.ok (.num (s_prod d))), strFmt,
          some "Multiply a list of numbers"⟩),
       ("hist", ⟨some histOp, hist_formatterF, some "Produce a histogram"⟩),
       ("mean", ⟨some (fun d => Except.ok (.num (s_mean d))), strFmt,
          some "Mean"⟩),
       ("median", ⟨some (fun d => np_median d), strFmt, some "Median"⟩),
       ("var", ⟨some (fun d => Except.ok (.num (s_var d))), strFmt,
          some "Variance"⟩),
       ("std", ⟨some (fun d => Except.ok (.num (ms (s_var d)))), strFmt,
          some "Standard Deviation"⟩),
       ("cumsum", ⟨some (fun d => Except.ok (.list (np_cumsum d))),
          list_formatter, some "Cumulative sum"⟩),
       ("cumprod", ⟨some (fun d => Except.ok (.list (s_cumprod d))),
          list_formatter, some "Cumulative product"⟩),
       ("exp", ⟨some (fun d => Except.ok (.list (d.map me))), list_formatter,
          some "Exponentiate every element in the list"⟩),
       ("log", ⟨some (fun d => Except.ok (.list (d.map ml))), list_formatter,
          some "Take the log of every element in the list"⟩),
       ("print", ⟨none, list_formatter, some "Just print the (cleaned) input"⟩),
       ("help", ⟨none, strFmt, some "Print this message"⟩),
       ("rstat", ⟨some rstatOp, strFmt,
          some "Computes mean & variance with lower memory usage"⟩)] := by
  rfl

/-- C3: for any registry state, a name that is not registered makes `process`
fail with the typed, recoverable error whose message carries the offending
name (`ValueError('Command not found: %s' % command)`), and for a registered
name the lookup step succeeds and dispatch proceeds to the command. -/
theorem process_unknown_command (cp : CommandProcessor) (name : String)
    (data : List ℚ) :
    (cp.valid_command name = false →
      cp.process name data = Except.error ("Command not found: " ++ name)) ∧
    (cp.valid_command name = true →
      ∃ c, dictGet cp.commands name = some c ∧
        cp.process name data = c.process data) := by
  constructor
  · intro h
    simp only [CommandProcessor.valid_command] at h
    cases hd : dictGet cp.commands name with
    | none => simp [CommandProcessor.process, hd]
    | some c => rw [hd] at h; simp at h
  · intro h
    simp only [CommandProcessor.valid_command] at h
    cases hd : dictGet cp.commands name with
    | none => rw [hd] at h; simp at h
    | some c =>
      refine ⟨c, rfl, ?_⟩
      simp [CommandProcessor.process, hd]

/-- Witness for `process_unknown_command`: the concrete dispatch of claim C3,
`process("nosuchcommand", …)`. -/
theorem process_unknown_command_witness :
    (defaultProcessor id id id).process "nosuchcommand" [] =
      Except.error "Command not found: nosuchcommand" :=
  (process_unknown_command (defaultProcessor id id id) "nosuchcommand" []).1
    (by simp only [CommandProcessor.valid_command]
        rw [defaultProcessor_commands]
        rfl)

/-! ## Registry update lemmas and the claim C9 theorem -/

lemma fst_map_replace (m : List (String × Command)) (k : String) (v : Command) :
    (m.map (fun p => if p.1 = k then (k, v) else p)).map Prod.fst =
      m.map Prod.fst := by
  induction m with
  | nil => rfl
  | cons p t ih =>
    by_cases hp : p.1 = k
    · simp [hp, ih]
    · simp only [List.map_cons, if_neg hp, ih]

lemma dictSet_names (m : List (String × Command)) (k : String) (v : Command) :
    (dictSet m k v).map Prod.fst =
      (if m.any (fun p => p.1 = k) then m.map Prod.fst
       else m.map Prod.fst ++ [k]) := by
  cases h : m.any (fun p => p.1 = k)
  · simp [dictSet, h]
  · simp only [dictSet, h, if_true]
    exact fst_map_replace m k v

lemma find?_map_replace (m : List (String × Command)) (k : String) (v : Command)
    (h : m.any (fun p => p.1 = k) = true) :
    (m.map (fun p => if p.1 = k then (k, v) else p)).find?
      (fun p => p.1 = k) = some (k, v) := by
  induction m with
  | nil => simp at h
  | cons p t ih =>
    by_cases hp : p.1 = k
    · simp [List.find?, if_pos hp]
    · have ht : t.any (fun p => p.1 = k) = true := by
        simpa [List.any_cons, hp] using h
      simp only [List.map_cons, if_neg hp]
      rw [List.find?_cons_of_neg _ (by simpa using hp)]
      exact ih ht

lemma find?_append_new (m : List (String × Command)) (k : String) (v : Command)
    (h : m.any (fun p => p.1 = k) = false) :
    (m ++ [(k, v)]).find? (fun p => p.1 = k) = some (k, v) := by
  induction m with
  | nil => simp [List.find?]
  | cons p t ih =>
    simp only [List.any_cons, Bool.or_eq_false_iff, decide_eq_false_iff_not] at h
    rw [List.cons_append, List.find?_cons_of_neg _ (by simpa using h.1)]
    exact ih (by simpa using h.2)

lemma dictGet_dictSet_self (m : List (String × Command)) (k : String)
    (v : Command) : dictGet (dictSet m k v) k = some v := by
  cases h : m.any (fun p => p.1 = k)
  · simp only [dictSet, h, Bool.false_eq_true, if_false]
    simp [dictGet, find?_append_new m k v h]
  · simp only [dictSet, h, if_true]
    simp [dictGet, find?_map_replace m k v h]

lemma dictSet_length (m : List (String × Command)) (k : String) (v : Command) :
    (dictSet m k v).length =
      (if m.any (fun p => p.1 = k) then m.length else m.length + 1) := by
  cases h : m.any (fun p => p.1 = k) <;> simp [dictSet, h]

lemma any_eq_isSome_dictGet (m : List (String × Command)) (k : String) :
    m.any (fun p => p.1 = k) = (dictGet m k).isSome := by
  induction m with
  | nil => simp [dictGet, List.find?]
  | cons p t ih =>
    by_cases hp : p.1 = k
    · simp [dictGet, List.find?, hp]
    · rw [List.any_cons]
      rw [dictGet, List.find?_cons_of_neg _ (by simpa using hp)]
      simp only [decide_eq_true_eq] at *
      simp [hp, dictGet, ih]

lemma dictSet_nodup (m : List (String × Command)) (k : String) (v : Command)
    (h : (m.map Prod.fst).Nodup) : ((dictSet m k v).map Prod.fst).Nodup := by
  rw [dictSet_names]
  cases ha : m.any (fun p => p.1 = k)
  · have hk : k ∉ m.map Prod.fst := by
      intro hmem
      rcases List.mem_map.mp hmem with ⟨p, hp, hfst⟩
      have : m.any (fun p => p.1 = k) = true :=
        List.any_eq_true.mpr ⟨p, hp, by simpa using hfst⟩
      rw [ha] at this
      exact Bool.false_ne_true this
    simp only [Bool.false_eq_true, if_false]
    exact List.Nodup.append h (List.nodup_singleton k)
      (by intro x hx hxk
          simp only [List.mem_singleton] at hxk
          exact hk (hxk ▸ hx))
  · simpa using h

lemma applyRegs_nodup (regs : List (String × Command)) :
    ∀ cp : CommandProcessor, (registryNames cp).Nodup →
      (registryNames (applyRegs regs cp)).Nodup := by
  induction regs with
  | nil => intro cp h; simpa [applyRegs] using h
  | cons r t ih =>
    intro cp h
    have step : (registryNames
        (cp.register_command r.1 (some r.2) none strFmt none)).Nodup := by
      simpa [registryNames, CommandProcessor.register_command] using
        dictSet_nodup cp.commands r.1 r.2 h
    simpa [applyRegs, List.foldl_cons] using
      ih (cp.register_command r.1 (some r.2) none strFmt none) step

/-- C9: registry names stay unique under every sequence of `register_command`
calls, and registering under an already-present name silently replaces the
earlier entry — the dict does not grow, and lookup afterwards yields the most
recently registered command. -/
theorem register_command_last_write_wins (regs : List (String × Command))
    (cp : CommandProcessor) (name : String) (c : Command) :
    (registryNames (applyRegs regs ⟨[]⟩)).Nodup ∧
    dictGet (cp.register_command name (some c) none strFmt none).commands
        name = some c ∧
    (cp.register_command name (some c) none strFmt none).commands.length =
      (if (dictGet cp.commands name).isSome then cp.commands.length
       else cp.commands.length + 1) := by
  refine ⟨applyRegs_nodup regs ⟨[]⟩ (by simp [registryNames]), ?_, ?_⟩
  · simpa [CommandProcessor.register_command] using
      dictGet_dictSet_self cp.commands name c
  · rw [CommandProcessor.register_command]
    simp only [dictSet_length, any_eq_isSome_dictGet]

/-! ## The claim C10 theorem: `s_cumsum` is an identity passthrough -/

lemma s_cumsum_go_eq (l : List ℚ) : ∀ acc : ℚ, s_cumsum_go acc l = l := by
  induction l with
  | nil => intro acc; rfl
  | cons x t ih => intro acc; simp [s_cumsum_go, ih]

/-- C10: the generator `s_cumsum` yields exactly its input, unchanged (the
running sum it accumulates is never yielded), and it is dead code: the
registered `cumsum` command instead materializes the stream and delegates to
the numeric library's cumulative sum (prefix sums), which differs from
`s_cumsum` already on `[1, 2]`. -/
theorem s_cumsum_passthrough_dead_code :
    (∀ data : List ℚ, s_cumsum data = data) ∧
    (∀ (me ml ms : ℚ → ℚ) (data : List ℚ),
      (defaultProcessor me ml ms).process "cumsum" data =
        Except.ok (String.intercalate "\n" ((np_cumsum data).map pyFloatStr))) ∧
    s_cumsum [1, 2] ≠ np_cumsum [1, 2] := by
  refine ⟨fun data => s_cumsum_go_eq data 0, ?_, ?_⟩
  · intro me ml ms data
    have hc : dictGet (defaultProcessor me ml ms).commands "cumsum" =
        some ⟨some (fun d => Except.ok (.list (np_cumsum d))), list_formatter,
          some "Cumulative sum"⟩ := by
      rw [defaultProcessor_commands]; rfl
    simp only [CommandProcessor.process, hc]
    rfl
  · norm_num [s_cumsum, s_cumsum_go, np_cumsum, np_cumsum_go]

/-! ## The claim C7 theorem: dispatch applies operation then formatter -/

unseal Rat.add Rat.mul Rat.inv Rat.sub in
/-- C7: for a registered command, `process` returns
`formatter(operation(stream))`; a command with no operation passes the stream
through unchanged to the formatter; concretely, `sum` on `[1,2,3]` formats to
`"6.0"` and `print` newline-joins its input unchanged. -/
theorem process_applies_operation_then_formatter (cp : CommandProcessor)
    (name : String) (c : Command) (data : List ℚ)
    (h : dictGet cp.commands name = some c) :
    cp.process name data = (c.call data).bind c.formatter ∧
    (c.function = none → c.call data = Except.ok (.list data)) ∧
    (∀ me ml ms : ℚ → ℚ,
      (defaultProcessor me ml ms).process "sum" [1, 2, 3] = Except.ok "6.0" ∧
      (defaultProcessor me ml ms).process "print" [1, 2] =
        Except.ok "1.0\n2.0") := by
  refine ⟨?_, ?_, ?_⟩
  · have hp : cp.process name data = c.process data := by
      simp [CommandProcessor.process, h]
    rw [hp]
    rfl
  · intro hf
    simp [Command.call, hf]
  · intro me ml ms
    constructor
    · have hc : dictGet (defaultProcessor me ml ms).commands "sum" =
          some ⟨some (fun d => Except.ok (pySum d)), strFmt,
            some "Add a list of numbers"⟩ := by
        rw [defaultProcessor_commands]; rfl
      simp only [CommandProcessor.process, hc]
      rfl
    · have hc : dictGet (defaultProcessor me ml ms).commands "print" =
          some ⟨none, list_formatter,
            some "Just print the (cleaned) input"⟩ := by
        rw [defaultProcessor_commands]; rfl
      simp only [CommandProcessor.process, hc]
      rfl

/-- Witness for `process_applies_operation_then_formatter` at the `print`
command of the default registry (which has no operation). -/
theorem process_applies_operation_then_formatter_witness :
    (defaultProcessor id id id).process "print" [(1 : ℚ), 2] =
      ((⟨none, list_formatter,
          some "Just print the (cleaned) input"⟩ : Command).call [1, 2]).bind
        list_formatter :=
  (process_applies_operation_then_formatter (defaultProcessor id id id)
    "print" ⟨none, list_formatter, some "Just print the (cleaned) input"⟩
    [1, 2] (by rw [defaultProcessor_commands]; rfl)).1

/-! ## Evaluation lemmas for `hist_formatter` -/

lemma ok_bind {α β : Type} (a : α) (f : α → Except String β) :
    ((Except.ok a : Except String α) >>= f) = f a := rfl

lemma pyMax_eq_maxD (l : List ℕ) (h : l ≠ []) :
    pyMax l = Except.ok (maxD l) := by
  cases l with
  | nil => exact absurd rfl h
  | cons x xs => simp [pyMax, maxD]

lemma pyGet_ok {α : Type} (l : List α) (i : ℕ) (d : α) (h : i < l.length) :
    pyGet l i = Except.ok (l.getD i d) := by
  have hg : l.get? i = some l[i] := by
    rw [List.get?_eq_getElem?]
    exact List.getElem?_eq_getElem h
  rw [pyGet, hg, List.getD_eq_getElem?_getD, List.getElem?_eq_getElem h]
  rfl

lemma getD_map {α β : Type} (f : α → β) (l : List α) (i : ℕ) (d : β) (d' : α)
    (h : i < l.length) : (l.map f).getD i d = f (l.getD i d') := by
  rw [List.getD_eq_getElem?_getD, List.getD_eq_getElem?_getD,
    List.getElem?_eq_getElem (by simpa using h), List.getElem?_eq_getElem h]
  simp

lemma mapM_ok {α β : Type} (l : List α) (f : α → Except String β) (g : α → β)
    (h : ∀ a ∈ l, f a = Except.ok (g a)) : l.mapM f = Except.ok (l.map g) := by
  induction l with
  | nil => rfl
  | cons x t ih =>
    rw [List.mapM_cons, h x (List.mem_cons_self x t), ok_bind,
      ih (fun a ha => h a (List.mem_cons_of_mem x ha))]
    rfl

lemma sbins_getD (edges : List ℚ) (i : ℕ) (h : i < edges.length) :
    ((edges.map fmt_g2).map (fun t => rjust t (labelWidth edges))).getD i "" =
      paddedLabel edges i := by
  rw [getD_map _ _ i "" "" (by simpa using h), paddedLabel]

/-- Evaluation of `hist_formatter` on inputs where Python does not raise:
the output is the newline-join of the first `n-1` half-open rows followed by
the closed last row, with the padded labels and the (possibly rescaled)
counts of `scaledCounts`. -/
lemma hist_formatter_run (vals : List ℕ) (edges : List ℚ) (tick : String)
    (maxw : ℤ) (hv : vals ≠ []) (he : vals.length < edges.length) :
    hist_formatter (vals, edges) tick maxw =
      Except.ok
        (String.intercalate "\n"
          ((List.range (vals.length - 1)).map (fun i =>
            "[" ++ paddedLabel edges i ++ "," ++ paddedLabel edges (i + 1) ++
              "): " ++
              pyRepeat tick
                ((scaledCounts vals (labelWidth edges) maxw).getD i 0)))
          ++ "\n[" ++ paddedLabel edges (vals.length - 1) ++ "," ++
          paddedLabel edges vals.length ++ "]: " ++
          pyRepeat tick
            ((scaledCounts vals (labelWidth edges) maxw).getD
              (vals.length - 1) 0)) := by
  have hvlen : 1 ≤ vals.length := List.length_pos.mpr hv
  have hblen : edges ≠ [] := by
    intro h
    rw [h] at he
    simp at he
  have hbne : (edges.map fmt_g2).map String.length ≠ [] := by
    simpa [List.map_eq_nil_iff] using hblen
  have h1 : pyMax ((edges.map fmt_g2).map String.length) =
      Except.ok (labelWidth edges) := pyMax_eq_maxD _ hbne
  have h2 : pyMax vals = Except.ok (maxD vals) := pyMax_eq_maxD vals hv
  have hsclen : (scaledCounts vals (labelWidth edges) maxw).length =
      vals.length := by
    rw [scaledCounts]
    split <;> rw [List.length_map]
  rw [hist_formatter]
  rw [show ((vals, edges) : List ℕ × List ℚ).1 = vals from rfl,
    show ((vals, edges) : List ℕ × List ℚ).2 = edges from rfl]
  rw [h1, ok_bind, h2, ok_bind]
  rw [show (if (maxD vals : ℤ) + 5 + ((labelWidth edges : ℤ) * 2) > maxw then
      vals.map (fun (v : ℕ) =>
        Int.fdiv ((maxw - 5 - ((labelWidth edges : ℤ) * 2)) * (v : ℤ))
          (maxD vals : ℤ))
    else vals.map (fun (v : ℕ) => (v : ℤ))) =
      scaledCounts vals (labelWidth edges) maxw from rfl]
  dsimp only
  rw [hsclen]
  rw [mapM_ok (List.range (vals.length - 1)) _
    (fun i =>
      "[" ++ paddedLabel edges i ++ "," ++ paddedLabel edges (i + 1) ++
        "): " ++
        pyRepeat tick ((scaledCounts vals (labelWidth edges) maxw).getD i 0))
    ?_]
  · rw [ok_bind]
    rw [pyGet_ok ((edges.map fmt_g2).map (fun t => rjust t (labelWidth edges)))
        (vals.length - 1) "" (by simp; omega),
      ok_bind,
      pyGet_ok ((edges.map fmt_g2).map (fun t => rjust t (labelWidth edges)))
        vals.length "" (by simp; omega),
      ok_bind,
      pyGet_ok (scaledCounts vals (labelWidth edges) maxw) (vals.length - 1) 0
        (by rw [hsclen]; omega),
      ok_bind]
    rw [sbins_getD edges (vals.length - 1) (by omega),
      sbins_getD edges vals.length (by omega)]
    rfl
  · intro i hi
    have hilt : i < vals.length - 1 := List.mem_range.mp hi
    rw [pyGet_ok ((edges.map fmt_g2).map (fun t => rjust t (labelWidth edges)))
        i "" (by simp; omega),
      ok_bind,
      pyGet_ok ((edges.map fmt_g2).map (fun t => rjust t (labelWidth edges)))
        (i + 1) "" (by simp; omega),
      ok_bind,
      pyGet_ok (scaledCounts vals (labelWidth edges) maxw) i 0
        (by rw [hsclen]; omega),
      ok_bind,
      sbins_getD edges i (by omega), sbins_getD edges (i + 1) (by omega)]
    rfl

/-! ## Claim C2: per-row tick counts -/

lemma scaledCounts_getD_eq_claimTick (vals : List ℕ) (edges : List ℚ)
    (maxw : ℤ) (i : ℕ) (h : i < vals.length) :
    (scaledCounts vals (labelWidth edges) maxw).getD i 0 =
      claimTick vals edges maxw i := by
  rw [scaledCounts, claimTick]
  by_cases hc : (maxD vals : ℤ) + 5 + ((labelWidth edges : ℤ) * 2) > maxw
  · rw [if_pos hc, if_neg (by omega), getD_map _ _ i 0 0 h]
    ring_nf
  · rw [if_neg hc, if_pos (by omega), getD_map _ _ i 0 0 h]

lemma foldl_append_length (l : List String) : ∀ init : String,
    (l.foldl (fun r s => r ++ s) init).length =
      init.length + (l.map String.length).sum := by
  induction l with
  | nil => intro init; simp
  | cons a t ih =>
    intro init
    rw [List.foldl_cons, ih]
    simp only [List.map_cons, List.sum_cons, String.length_append]
    omega

lemma pyRepeat_length (s : String) (k : ℤ) :
    (pyRepeat s k).length = k.toNat * s.length := by
  rw [pyRepeat, String.join, foldl_append_length, List.map_replicate,
    List.sum_replicate]
  simp [smul_eq_mul]

unseal Rat.add Rat.mul Rat.inv Rat.sub in
/-- C2: for a histogram result whose labels fit into the width budget, each
row of `hist_formatter` carries exactly the raw bin count in ticks when
`maxVal + 5 + 2·labelWidth ≤ maxWidth`, and otherwise exactly
`floor(availableWidth · count / maxVal)` ticks, where
`availableWidth = maxWidth - 5 - 2·labelWidth` (`claimTick`). -/
theorem hist_formatter_tick_counts (vals : List ℕ) (edges : List ℚ)
    (maxw : ℤ) (hv : vals ≠ []) (he : vals.length < edges.length)
    (hw : 5 + 2 * (labelWidth edges : ℤ) ≤ maxw) :
    (∀ i, i < vals.length → 0 ≤ claimTick vals edges maxw i ∧
      (pyRepeat "#" (claimTick vals edges maxw i)).length =
        (claimTick vals edges maxw i).toNat) ∧
    hist_formatter (vals, edges) "#" maxw =
      Except.ok
        (String.intercalate "\n"
          ((List.range (vals.length - 1)).map (fun i =>
            "[" ++ paddedLabel edges i ++ "," ++ paddedLabel edges (i + 1) ++
              "): " ++ pyRepeat "#" (claimTick vals edges maxw i)))
          ++ "\n[" ++ paddedLabel edges (vals.length - 1) ++ "," ++
          paddedLabel edges vals.length ++ "]: " ++
          pyRepeat "#" (claimTick vals edges maxw (vals.length - 1))) := by
  have hvlen : 1 ≤ vals.length := List.length_pos.mpr hv
  constructor
  · intro i _
    constructor
    · rw [claimTick]
      split
      · exact Int.natCast_nonneg _
      · exact Int.fdiv_nonneg
          (mul_nonneg (by omega) (Int.natCast_nonneg _))
          (Int.natCast_nonneg _)
    · rw [pyRepeat_length, show ("#" : String).length = 1 from rfl,
        Nat.mul_one]
  · rw [hist_formatter_run vals edges "#" maxw hv he,
      scaledCounts_getD_eq_claimTick vals edges maxw (vals.length - 1)
        (by omega)]
    have hmap : (List.range (vals.length - 1)).map (fun i =>
        "[" ++ paddedLabel edges i ++ "," ++ paddedLabel edges (i + 1) ++
          "): " ++
          pyRepeat "#" ((scaledCounts vals (labelWidth edges) maxw).getD i 0)) =
        (List.range (vals.length - 1)).map (fun i =>
          "[" ++ paddedLabel edges i ++ "," ++ paddedLabel edges (i + 1) ++
            "): " ++ pyRepeat "#" (claimTick vals edges maxw i)) := by
      refine List.map_congr_left (fun i hi => ?_)
      have hilt : i < vals.length - 1 := List.mem_range.mp hi
      rw [scaledCounts_getD_eq_claimTick vals edges maxw i (by omega)]
    rw [hmap]

unseal Rat.add Rat.mul Rat.inv Rat.sub in
/-- Witness for `hist_formatter_tick_counts` on a histogram that must be
rescaled (`maxVal = 100` into a width-20 display). -/
theorem hist_formatter_tick_counts_witness :
    hist_formatter ([100, 50], [0, 1, 2]) "#" 20 =
      Except.ok "[0,1): #############\n[1,2]: ######" := by
  have h := hist_formatter_tick_counts [100, 50] [0, 1, 2] 20 (by decide)
    (by decide) (by decide)
  rw [h.2]
  rfl

/-! ## Claim C8: row format and newline joining -/

lemma intercalate_go_append (as : List String) (x : String) :
    ∀ acc : String, String.intercalate.go acc "\n" (as ++ [x]) =
      String.intercalate.go acc "\n" as ++ "\n" ++ x := by
  induction as with
  | nil => intro acc; rfl
  | cons a t ih => intro acc; exact ih (acc ++ "\n" ++ a)

lemma intercalate_append_singleton (xs : List String) (x : String)
    (h : xs ≠ []) :
    String.intercalate "\n" (xs ++ [x]) =
      String.intercalate "\n" xs ++ "\n" ++ x := by
  cases xs with
  | nil => exact absurd rfl h
  | cons a t => exact intercalate_go_append t x a

lemma str_merge_nl_bracket (z : String) :
    ("\n" : String) ++ ("[" ++ z) = "\n[" ++ z := by
  rw [← String.append_assoc]
  rfl

/-- C8 (amended): for a histogram result with at least two bins, the output
is the newline-join of one row per bin in ascending order, each row
`[lowEdge,highEdge): ticks` except the final closed row
`[lowEdge,highEdge]: ticks`. (For a single bin the source prepends a spurious
newline — see the counterexample.) -/
theorem hist_formatter_rows (vals : List ℕ) (edges : List ℚ) (tick : String)
    (maxw : ℤ) (hv2 : 2 ≤ vals.length) (he : vals.length < edges.length) :
    hist_formatter (vals, edges) tick maxw =
      Except.ok (String.intercalate "\n"
        ((List.range vals.length).map (fun i =>
          "[" ++ paddedLabel edges i ++ "," ++ paddedLabel edges (i + 1) ++
            (if i = vals.length - 1 then "]" else ")") ++ ": " ++
            pyRepeat tick
              ((scaledCounts vals (labelWidth edges) maxw).getD i 0)))) := by
  have hv : vals ≠ [] := List.length_pos.mp (by omega)
  rw [hist_formatter_run vals edges tick maxw hv he]
  have hsplit : (List.range vals.length).map (fun i =>
      "[" ++ paddedLabel edges i ++ "," ++ paddedLabel edges (i + 1) ++
        (if i = vals.length - 1 then "]" else ")") ++ ": " ++
        pyRepeat tick ((scaledCounts vals (labelWidth edges) maxw).getD i 0)) =
      ((List.range (vals.length - 1)).map (fun i =>
        "[" ++ paddedLabel edges i ++ "," ++ paddedLabel edges (i + 1) ++
          "): " ++ pyRepeat tick
            ((scaledCounts vals (labelWidth edges) maxw).getD i 0))) ++
      ["[" ++ paddedLabel edges (vals.length - 1) ++ "," ++
        paddedLabel edges vals.length ++ "]: " ++
        pyRepeat tick ((scaledCounts vals (labelWidth edges) maxw).getD
          (vals.length - 1) 0)] := by
    conv_lhs =>
      rw [show vals.length = (vals.length - 1) + 1 from by omega,
        List.range_succ]
    rw [List.map_append]
    congr 1
    · refine List.map_congr_left (fun i hi => ?_)
      have hilt := List.mem_range.mp hi
      rw [if_neg (by omega)]
      rw [String.append_assoc
        ("[" ++ paddedLabel edges i ++ "," ++ paddedLabel edges (i + 1))
        ")" ": "]
      rfl
    · rw [List.map_cons, List.map_nil]
      rw [if_pos (by omega)]
      rw [show (vals.length - 1) + 1 = vals.length from by omega]
      rw [String.append_assoc
        ("[" ++ paddedLabel edges (vals.length - 1) ++ "," ++
          paddedLabel edges vals.length)
        "]" ": "]
      rfl
  rw [hsplit, intercalate_append_singleton _ _
    (by simp only [ne_eq, List.map_eq_nil_iff, List.range_eq_nil]; omega)]
  simp only [String.append_assoc]
  rw [str_merge_nl_bracket]

unseal Rat.add Rat.mul Rat.inv Rat.sub in
/-- Witness for `hist_formatter_rows` on a three-bin histogram. -/
theorem hist_formatter_rows_witness :
    hist_formatter ([12, 8, 7], [0, 1, 2, 3]) "#" 80 =
      Except.ok "[0,1): ############\n[1,2): ########\n[2,3]: #######" := by
  rw [hist_formatter_rows [12, 8, 7] [0, 1, 2, 3] "#" 80 (by decide)
    (by decide)]
  rfl

unseal Rat.add Rat.mul Rat.inv Rat.sub in
/-- Counterexample for C8 as stated: for the single-bin histogram result
`([1], [0, 1])` the source emits a leading newline (an empty first line)
before the one closed row, so the output is not the newline-join of its
rows. -/
theorem hist_formatter_single_bin_leading_newline :
    hist_formatter ([1], [0, 1]) "#" 80 = Except.ok "\n[0,1]: #" ∧
    "\n[0,1]: #" ≠ "[0,1]: #" := by
  exact ⟨by rfl, by decide⟩

/-! ## Claim C4: degenerate data -/

/-- Counterexample to C4 as stated: the registered `max` command (delegation
to the builtin `max`) raises `ValueError` on the empty stream instead of
returning a defined fallback result. -/
theorem process_max_empty_raises :
    (defaultProcessor id id id).process "max" [] =
      Except.error "ValueError: max() arg is an empty sequence" := by
  simp only [CommandProcessor.process, defaultProcessor_commands]
  rfl

unseal Rat.add Rat.mul Rat.inv Rat.sub in
/-- C4 (amended): degenerate data. The streaming-statistics commands return
their defined fallbacks on the empty stream (`mean`/`var` print `0.0`,
`rstat` prints `(0.0, 0.0)`, `sum` the int `0`, `prod` `1.0`); a single-point
and an all-equal-values stream histogram and render without error (the
numeric library widens the zero-width range, and at the default width the
all-zero-counts case skips scaling, so `maxVal = 0` causes no division);
but the `max`, `min` and `hist` commands raise `ValueError` on the empty
stream rather than returning a fallback. -/
theorem degenerate_data_fallbacks :
    ∀ me ml ms : ℚ → ℚ,
    hist_formatter ([0, 0], [1, 2, 3]) "#" 80 =
      Except.ok "[1,2): \n[2,3]: " ∧
    (defaultProcessor me ml ms).process "mean" [] = Except.ok "0.0" ∧
    (defaultProcessor me ml ms).process "var" [] = Except.ok "0.0" ∧
    (defaultProcessor me ml ms).process "rstat" [] =
      Except.ok "(0.0, 0.0)" ∧
    (defaultProcessor me ml ms).process "rstat" [5] =
      Except.ok "(5.0, 0.0)" ∧
    (defaultProcessor me ml ms).process "sum" [] = Except.ok "0" ∧
    (defaultProcessor me ml ms).process "prod" [] = Except.ok "1.0" ∧
    (defaultProcessor me ml ms).process "hist" [5] =
      Except.ok ("[4.5,4.6): \n[4.6,4.7): \n[4.7,4.8): \n[4.8,4.9): " ++
        "\n[4.9,  5): \n[  5,5.1): #\n[5.1,5.2): \n[5.2,5.3): " ++
        "\n[5.3,5.4): \n[5.4,5.5]: ") ∧
    (defaultProcessor me ml ms).process "hist" [3, 3, 3, 3] =
      Except.ok ("[2.5,2.6): \n[2.6,2.7): \n[2.7,2.8): \n[2.8,2.9): " ++
        "\n[2.9,  3): \n[  3,3.1): ####\n[3.1,3.2): \n[3.2,3.3): " ++
        "\n[3.3,3.4): \n[3.4,3.5]: ") ∧
    (defaultProcessor me ml ms).process "max" [] =
      Except.error "ValueError: max() arg is an empty sequence" ∧
    (defaultProcessor me ml ms).process "min" [] =
      Except.error "ValueError: min() arg is an empty sequence" ∧
    (defaultProcessor me ml ms).process "hist" [] =
      Except.error "ValueError: zero-size array" := by
  intro me ml ms
  refine ⟨by rfl, ?_, ?_, ?_, ?_, ?_, ?_, ?_, ?_, ?_, ?_, ?_⟩ <;>
    · simp only [CommandProcessor.process, defaultProcessor_commands]
      rfl

/-! ## Claim C5: the help listing -/

/-- Counterexample to C5 as stated: each line of `command_list` begins with a
tab — the format is `"\t<name>\t<helpText>"`, not `"<name>\t<helpText>"`. -/
theorem command_list_leading_tab :
    ((⟨[]⟩ : CommandProcessor).register_command "sum" none none strFmt
        (some "Add a list of numbers")).command_list =
      "\tsum\tAdd a list of numbers" ∧
    "\tsum\tAdd a list of numbers" ≠
      "sum" ++ "\t" ++ "Add a list of numbers" := by
  exact ⟨by rfl, by decide⟩

/-- C5 (amended): for every sequence of registrations, `command_list`
newline-joins exactly one line per registered command, the lines ordered by
strictly increasing command name regardless of registration order, each line
formatted as `"\t<name>\t<helpText>"` (tab-prefixed). -/
theorem command_list_sorted_lines (regs : List (String × Command)) :
    ∃ entries : List (String × Command),
      entries.Perm (applyRegs regs ⟨[]⟩).commands ∧
      entries.Pairwise (fun p q => p.1 < q.1) ∧
      (applyRegs regs ⟨[]⟩).command_list =
        String.intercalate "\n"
          (entries.map (fun p => "\t" ++ p.1 ++ "\t" ++ pyHelpStr p.2.help)) := by
  haveI : IsTotal (String × Command) (fun p q => p.1 ≤ q.1) :=
    ⟨fun a b => le_total a.1 b.1⟩
  haveI : IsTrans (String × Command) (fun p q => p.1 ≤ q.1) :=
    ⟨fun a b c hab hbc => le_trans hab hbc⟩
  refine ⟨(applyRegs regs ⟨[]⟩).commands.insertionSort (fun p q => p.1 ≤ q.1),
    List.perm_insertionSort _ _, ?_, rfl⟩
  have hsorted : List.Sorted (fun p q : String × Command => p.1 ≤ q.1)
      ((applyRegs regs ⟨[]⟩).commands.insertionSort (fun p q => p.1 ≤ q.1)) :=
    List.sorted_insertionSort _ _
  have hnodup : ((applyRegs regs ⟨[]⟩).commands.map Prod.fst).Nodup := by
    have := applyRegs_nodup regs ⟨[]⟩ (by simp [registryNames])
    simpa [registryNames] using this
  have hperm := List.perm_insertionSort (fun p q : String × Command => p.1 ≤ q.1)
    (applyRegs regs ⟨[]⟩).commands
  have hnodup2 : (((applyRegs regs ⟨[]⟩).commands.insertionSort
      (fun p q => p.1 ≤ q.1)).map Prod.fst).Nodup :=
    ((hperm.map Prod.fst).nodup_iff).mpr hnodup
  have hne : ((applyRegs regs ⟨[]⟩).commands.insertionSort
      (fun p q => p.1 ≤ q.1)).Pairwise (fun p q => p.1 ≠ q.1) :=
    List.pairwise_map.mp hnodup2
  exact (hsorted.and hne).imp (fun h => lt_of_le_of_ne h.1 h.2)

end StreamCalc
